import Mathlib

/-!
Verification of the bounded tool-dispatch reasoning loop of the
market-intelligence agent repository.

The main embedding (`namespace MI`) follows
`market_intel_agent/core/reasoning_loop.py` (class `ReasoningLoop`): the
rule-based ReAct loop with working memory, collected-data buckets, the
fallback path for empty web searches, and the exception-catching tool
executor.  Python dynamic values stored in `collected_data` / `observations`
are embedded as `PyVal` (strings, lists, dicts — the shapes the tools and
error paths of the repository produce); Python truthiness and `len` are embedded
explicitly.  A tool call that raises is an `Except.error`; `_execute_tool`
catches it and converts it to an error string, while exceptions raised
outside that `try` block (for example while building the funding-tool
arguments in `_determine_action`) propagate out of `run`, which is modelled
by the `Option String` outcome of the loop.

A second embedding (`namespace RA`) follows `Market_survey/main.py`
(`react_generate_report` and `_extract_action_and_input`): the LLM-driven
ReAct loop whose stopping condition is a final-answer marker in the output
of the model.
-/

/-- Embedding of the Python values that flow through the reasoning loop:
strings (including error messages produced by the exception handlers),
lists (competitor/web/RAG result payloads) and dicts (funding payloads). -/
inductive PyVal : Type where
  | pstr (s : String)
  | plist (xs : List PyVal)
  | pdict (kvs : List (String × PyVal))

/-- Python truthiness (`bool(v)`) for the embedded values. -/
def PyVal.truthy : PyVal → Bool
  | .pstr s => !s.data.isEmpty
  | .plist xs => !xs.isEmpty
  | .pdict kvs => !kvs.isEmpty

/-- Python `len(v)` for the embedded values. -/
def PyVal.pyLen : PyVal → Nat
  | .pstr s => s.length
  | .plist xs => xs.length
  | .pdict kvs => kvs.length

theorem PyVal.truthy_iff_pyLen (v : PyVal) : v.truthy = true ↔ 0 < v.pyLen := by
  cases v with
  | pstr s =>
      cases s with
      | mk data => cases data <;> simp [PyVal.truthy, PyVal.pyLen, String.length]
  | plist xs => cases xs <;> simp [PyVal.truthy, PyVal.pyLen]
  | pdict kvs => cases kvs <;> simp [PyVal.truthy, PyVal.pyLen]

/-- Prefix test `subAt pat hay`: `pat` is a prefix of `hay` (character lists). -/
def subAt : List Char → List Char → Bool
  | [], _ => true
  | _ :: _, [] => false
  | p :: ps, h :: hs => p == h && subAt ps hs

/-- Substring test `hasSubL hay pat`: `pat` occurs as a contiguous substring
of `hay`.  Embeds the Python test `pat in hay` for nonempty `pat`. -/
def hasSubL : List Char → List Char → Bool
  | hay, pat =>
    match hay with
    | [] => pat.isEmpty
    | _ :: hs => subAt pat hay || hasSubL hs pat

theorem subAt_append (pat a b : List Char) (h : subAt pat a = true) :
    subAt pat (a ++ b) = true := by
  induction pat generalizing a with
  | nil => simp [subAt]
  | cons p ps ih =>
      cases a with
      | nil => simp [subAt] at h
      | cons x xs =>
          simp only [subAt, Bool.and_eq_true, beq_iff_eq] at h ⊢
          exact ⟨h.1, ih xs h.2⟩

theorem hasSubL_append_left (a b pat : List Char) (h : hasSubL a pat = true) :
    hasSubL (a ++ b) pat = true := by
  induction a with
  | nil =>
      cases pat with
      | nil => cases b <;> simp [hasSubL, subAt, List.isEmpty]
      | cons p ps => simp [hasSubL, List.isEmpty] at h
  | cons x xs ih =>
      simp only [hasSubL, Bool.or_eq_true] at h
      rcases h with h | h
      · simp only [List.cons_append, hasSubL, Bool.or_eq_true]
        exact Or.inl (subAt_append _ _ _ h)
      · simp only [List.cons_append, hasSubL, Bool.or_eq_true]
        exact Or.inr (ih h)

/-- Embedding of the Python method `str.lower()` (the strings involved are ASCII). -/
def myLower (s : String) : String := ⟨s.data.map Char.toLower⟩

/-- Embedding of the Python substring test `pat in hay`. -/
def hasSubstr (hay pat : String) : Bool := hasSubL hay.data pat.data

theorem myLower_append (a b : String) :
    myLower (a ++ b) = myLower a ++ myLower b := by
  simp [myLower, String.data_append, List.map_append]
  rfl

theorem hasSubstr_append_left (a b pat : String) (h : hasSubstr a pat = true) :
    hasSubstr (a ++ b) pat = true := by
  simp only [hasSubstr, String.data_append] at h ⊢
  exact hasSubL_append_left _ _ _ h

namespace MI

/-! Embedding of `market_intel_agent/core/reasoning_loop.py` (`ReasoningLoop`). -/

/-- The tool names dispatched on by `_determine_action` / `_execute_tool`,
plus the `NoOp` sentinel. -/
inductive Tool : Type where
  | competitorFinder
  | fundingRetriever
  | webSearchTool
  | ragQueryTool
  | noOp
deriving DecidableEq

/-- Rendering of a tool name, as used in the Python error-message strings. -/
def toolLabel : Tool → String
  | .competitorFinder => "CompetitorFinder"
  | .fundingRetriever => "FundingRetriever"
  | .webSearchTool => "WebSearchTool"
  | .ragQueryTool => "RAGQueryTool"
  | .noOp => "NoOp"

/-- Structured input record (spec section 3): all four fields always present. -/
structure ParsedInput : Type where
  core_idea : String
  domain : String
  key_features : List String
  target_audience : String

/-- Values recorded in the `args` mapping of a tool call. -/
inductive ArgV : Type where
  | s (v : String)
  | n (v : Nat)
  | strs (vs : List String)
  | vals (vs : List PyVal)

/-- One recorded entry of `working_memory["actions"]`.  The wall-clock
`timestamp` written by `time.time()` is not modelled (it is never read). -/
structure ActionRec : Type where
  tool : Tool
  args : List (String × ArgV)

/-- The `working_memory["collected_data"]` dict.  `news_results` and
`finance_data` exist in `__init__` but are never written nor read. -/
structure CollectedData : Type where
  competitors : PyVal
  funding_data : PyVal
  web_search_results : PyVal
  rag_results : PyVal
  news_results : PyVal
  finance_data : PyVal

/-- The working-memory dict built in `__init__` (plus `parsed_input`, which
is passed explicitly to the functions that read it). -/
structure WorkingMemory : Type where
  thoughts : List String
  actions : List ActionRec
  observations : List PyVal
  fallbackAttempts : Nat
  collected : CollectedData

/-- Loop state: the working memory plus two ghost counters used only to
state theorems — the number of fallback tool invocations performed and the
number of fallback observations appended. -/
structure LoopState : Type where
  wm : WorkingMemory
  fbInvocations : Nat
  fbObsCount : Nat

/-- Loop configuration: `max_iterations` and the fallback settings loaded
from the YAML config (the confidence threshold is read but never used), and
the key set of the `tools` dict handed to the constructor. -/
structure Config : Type where
  maxIterations : Nat
  useFallback : Bool
  maxFallbackAttempts : Nat
  reg : Tool → Bool

def initCollected : CollectedData :=
  { competitors := .plist []
    funding_data := .pdict []
    web_search_results := .plist []
    rag_results := .plist []
    news_results := .plist []
    finance_data := .plist [] }

def initState : LoopState :=
  { wm := { thoughts := [], actions := [], observations := [],
            fallbackAttempts := 0, collected := initCollected }
    fbInvocations := 0
    fbObsCount := 0 }

/-- Embeds `_should_stop`. -/
def shouldStop (cd : CollectedData) : Bool :=
  (cd.competitors.pyLen != 0) && cd.funding_data.truthy &&
    ((cd.web_search_results.pyLen != 0) || (cd.rag_results.pyLen != 0))

/-- Embeds `_generate_thought`. -/
def generateThought (pi : ParsedInput) (cd : CollectedData) : String :=
  if !cd.competitors.truthy then
    "I need to find competitors in the " ++ pi.domain ++ " domain"
  else if !cd.funding_data.truthy && cd.competitors.truthy then
    "I should retrieve funding data for the identified competitors"
  else if !cd.web_search_results.truthy then
    "I need to search for market trends in " ++ pi.domain
  else if !cd.rag_results.truthy then
    "I should query the rag system for additional context"
  else
    "I have collected sufficient data for analysis"

/-- Python indexing `comp["name"]` for one element of the competitors payload: a dict
lookup that raises `KeyError` when the key is missing and `TypeError` when
the element is not a dict. -/
def getNameField : PyVal → Except String PyVal
  | .pdict kvs =>
      match kvs.lookup "name" with
      | some v => .ok v
      | none => .error "KeyError: name"
  | _ => .error "TypeError: string indices must be integers"

/-- Embeds `[comp["name"] for comp in competitors] if competitors else []`.
Iterating a Python string yields its one-character strings and iterating a
dict yields its keys, so indexing those with `"name"` raises `TypeError`. -/
def companyNames : PyVal → Except String (List PyVal)
  | v =>
    if !v.truthy then .ok []
    else
      match v with
      | .plist xs => xs.mapM getNameField
      | _ => .error "TypeError: string indices must be integers"

/-- Embeds `_determine_action`: substring dispatch on the lowercased thought.
An `Except.error` is a Python exception escaping the (unprotected) call. -/
def determineAction (pi : ParsedInput) (cd : CollectedData) (thought : String) :
    Except String (String × Tool × List (String × ArgV)) :=
  let t := myLower thought
  if hasSubstr t "find competitors" then
    .ok ("Search for competitors", .competitorFinder,
         [("domain", .s pi.domain), ("features", .strs pi.key_features)])
  else if hasSubstr t "funding data" then
    (companyNames cd.competitors).map fun names =>
      ("Retrieve funding data", .fundingRetriever, [("companies", .vals names)])
  else if hasSubstr t "search for market" then
    .ok ("Web search for market trends", .webSearchTool,
         [("query", .s (pi.domain ++ " market trends 2023")), ("num_results", .n 5)])
  else if hasSubstr t "query the rag" then
    .ok ("RAG query for domain knowledge", .ragQueryTool,
         [("query", .s (pi.domain ++ " startup success factors"))])
  else
    .ok ("No action needed", .noOp, [])

/-- The behaviour of the registered tools: the result (or raised exception)
of the main tool call made at iteration `i`.  Quantifying over `Env` covers
every sequence of tool return values and failure injections. -/
def Env : Type := Nat → Tool → Except String PyVal

/-- The behaviour of the `RAGQueryTool.query` call made by
`_execute_fallback` at iteration `i`. -/
def FbEnv : Type := Nat → Except String PyVal

/-- Embeds `_execute_tool`, called only when the tool name is in the registry:
dispatches on the name, catching any exception and returning an error
string; the `NoOp` name falls through to the unsupported-tool branch. -/
def executeTool (env : Env) (i : Nat) (t : Tool) : PyVal :=
  match t with
  | .noOp => .pstr "Error: Unsupported tool NoOp"
  | _ =>
      match env i t with
      | .ok v => v
      | .error e => .pstr ("Error executing " ++ toolLabel t ++ ": " ++ e)

/-- Embeds `_update_collected_data`. -/
def updateCollected (t : Tool) (obs : PyVal) (cd : CollectedData) : CollectedData :=
  match t with
  | .competitorFinder => { cd with competitors := obs }
  | .fundingRetriever => { cd with funding_data := obs }
  | .webSearchTool => { cd with web_search_results := obs }
  | .ragQueryTool => { cd with rag_results := obs }
  | .noOp => cd

/-- Embeds `_needs_fallback`: web search returned an empty list and the fallback
budget is not exhausted. -/
def needsFallback (cfg : Config) (attempts : Nat) (t : Tool) (obs : PyVal) : Bool :=
  match t, obs with
  | .webSearchTool, .plist xs => xs.isEmpty && decide (attempts < cfg.maxFallbackAttempts)
  | _, _ => false

/-- Embeds `_execute_fallback` for a failed web search: query the RAG tool if it is
registered, catching exceptions into an empty list. -/
def executeFallback (cfg : Config) (fbenv : FbEnv) (i : Nat) : PyVal :=
  if cfg.reg Tool.ragQueryTool then
    match fbenv i with
    | .ok v => v
    | .error _ => .plist []
  else .plist []

/-- The fallback observation is stored under the `WebSearchTool` category,
wrapped in a list unless it already is one. -/
def fbWrap (v : PyVal) : PyVal :=
  match v with
  | .plist _ => v
  | other => .plist [other]

/-- One iteration of the `while` body of `run` (thought, action, execution,
fallback, recording).  Returns `some e` when a Python exception `e`
propagates out of the body, together with the state at that point. -/
def step (cfg : Config) (pi : ParsedInput) (env : Env) (fbenv : FbEnv)
    (i : Nat) (st : LoopState) : Option String × LoopState :=
  let thought := generateThought pi st.wm.collected
  let wm1 := { st.wm with thoughts := st.wm.thoughts ++ [thought] }
  match determineAction pi wm1.collected thought with
  | .error e => (some e, { st with wm := wm1 })
  | .ok (_, t, args) =>
    let wm2 := { wm1 with actions := wm1.actions ++ [({ tool := t, args := args } : ActionRec)] }
    if cfg.reg t then
      let obs := executeTool env i t
      let wm3 := { wm2 with
                    observations := wm2.observations ++ [obs]
                    collected := updateCollected t obs wm2.collected }
      if cfg.useFallback && needsFallback cfg wm3.fallbackAttempts t obs then
        let fbObs := executeFallback cfg fbenv i
        let inv := if cfg.reg Tool.ragQueryTool then 1 else 0
        if fbObs.truthy then
          (none,
           { wm := { wm3 with
                      observations := wm3.observations ++ [fbObs]
                      collected := updateCollected .webSearchTool (fbWrap fbObs) wm3.collected
                      fallbackAttempts := wm3.fallbackAttempts + 1 }
             fbInvocations := st.fbInvocations + inv
             fbObsCount := st.fbObsCount + 1 })
        else
          (none, { st with wm := wm3, fbInvocations := st.fbInvocations + inv })
      else
        (none, { st with wm := wm3 })
    else
      let wm3 := { wm2 with
                    observations :=
                      wm2.observations ++ [PyVal.pstr ("Error: Tool " ++ toolLabel t ++ " not found")] }
      (none, { st with wm := wm3 })

/-- The `while iteration < max_iterations` loop of `run`: returns the
escaped exception (if any), the final loop state, and the snapshot of
`collected_data` at the end of each completed iteration. -/
def runAux (cfg : Config) (pi : ParsedInput) (env : Env) (fbenv : FbEnv) :
    Nat → Nat → LoopState → Option String × LoopState × List CollectedData
  | 0, _, st => (none, st, [])
  | fuel + 1, i, st =>
    match step cfg pi env fbenv i st with
    | (some e, st1) => (some e, st1, [])
    | (none, st1) =>
      if shouldStop st1.wm.collected then (none, st1, [st1.wm.collected])
      else
        match runAux cfg pi env fbenv fuel (i + 1) st1 with
        | (e, stf, tr) => (e, stf, st1.wm.collected :: tr)

/-- Embeds `ReasoningLoop.run`. -/
def run (cfg : Config) (pi : ParsedInput) (env : Env) (fbenv : FbEnv) :
    Option String × LoopState × List CollectedData :=
  runAux cfg pi env fbenv cfg.maxIterations 0 initState

/-- The exception escaping `run`, if any. -/
def runErr (cfg : Config) (pi : ParsedInput) (env : Env) (fbenv : FbEnv) : Option String :=
  (run cfg pi env fbenv).1

/-- The final loop state of `run`. -/
def runState (cfg : Config) (pi : ParsedInput) (env : Env) (fbenv : FbEnv) : LoopState :=
  (run cfg pi env fbenv).2.1

/-- The per-iteration `collected_data` snapshots of `run`. -/
def runTrace (cfg : Config) (pi : ParsedInput) (env : Env) (fbenv : FbEnv) :
    List CollectedData :=
  (run cfg pi env fbenv).2.2

end MI

theorem PyVal.truthy_eq_pyLen_bne (v : PyVal) : v.truthy = (v.pyLen != 0) := by
  cases v with
  | pstr s => cases s with
    | mk data => cases data <;> simp [PyVal.truthy, PyVal.pyLen, String.length]
  | plist xs => cases xs <;> simp [PyVal.truthy, PyVal.pyLen]
  | pdict kvs => cases kvs <;> simp [PyVal.truthy, PyVal.pyLen]

theorem PyVal.truthy_fbWrap (v : PyVal) (h : v.truthy = true) :
    (MI.fbWrap v).truthy = true := by
  cases v <;> simp_all [MI.fbWrap, PyVal.truthy]

namespace MI

/-! Substring facts about the fixed thought texts. -/

theorem compThought_pat1 (d : String) :
    hasSubstr (myLower (("I need to find competitors in the " ++ d) ++ " domain"))
      "find competitors" = true := by
  rw [myLower_append, myLower_append]
  exact hasSubstr_append_left _ _ _ (hasSubstr_append_left _ _ _ (by decide))

theorem fundThought_pat1 :
    hasSubstr (myLower "I should retrieve funding data for the identified competitors")
      "find competitors" = false := by decide

theorem fundThought_pat2 :
    hasSubstr (myLower "I should retrieve funding data for the identified competitors")
      "funding data" = true := by decide

theorem webThought_pat3 (d : String) :
    hasSubstr (myLower ("I need to search for market trends in " ++ d))
      "search for market" = true := by
  rw [myLower_append]
  exact hasSubstr_append_left _ _ _ (by decide)

theorem ragThought_pat1 :
    hasSubstr (myLower "I should query the rag system for additional context")
      "find competitors" = false := by decide

theorem ragThought_pat2 :
    hasSubstr (myLower "I should query the rag system for additional context")
      "funding data" = false := by decide

theorem ragThought_pat3 :
    hasSubstr (myLower "I should query the rag system for additional context")
      "search for market" = false := by decide

theorem ragThought_pat4 :
    hasSubstr (myLower "I should query the rag system for additional context")
      "query the rag" = true := by decide

theorem suffThought_pat1 :
    hasSubstr (myLower "I have collected sufficient data for analysis")
      "find competitors" = false := by decide

theorem suffThought_pat2 :
    hasSubstr (myLower "I have collected sufficient data for analysis")
      "funding data" = false := by decide

theorem suffThought_pat3 :
    hasSubstr (myLower "I have collected sufficient data for analysis")
      "search for market" = false := by decide

theorem suffThought_pat4 :
    hasSubstr (myLower "I have collected sufficient data for analysis")
      "query the rag" = false := by decide

/-! Concrete registries, configurations, inputs and tool behaviours used by
the witnesses and counterexamples. -/

/-- The registry holding the four real tools (as built in `main.py`). -/
def reg4 : Tool → Bool
  | .noOp => false
  | _ => true

/-- The default configuration: `max_iterations = 10`, fallback enabled with
`max_fallback_attempts = 2` (the YAML defaults). -/
def cfgStd : Config :=
  { maxIterations := 10, useFallback := true, maxFallbackAttempts := 2, reg := reg4 }

/-- Scenario-A style parsed input. -/
def piFin : ParsedInput :=
  { core_idea := "biodegradable pods", domain := "FinTech", key_features := [],
    target_audience := "SMB" }

/-- A parsed input whose `domain` text embeds the competitor action pattern,
so the web-trends thought re-selects the competitor tool. -/
def piAdv : ParsedInput :=
  { core_idea := "x", domain := "find competitors", key_features := [],
    target_audience := "SMB" }

def compOk : PyVal := .plist [.pdict [("name", .pstr "Acme")]]

def fundOk : PyVal := .pdict [("Acme", .pstr "Series A 1M")]

/-- All tools succeed with non-empty results. -/
def envGood : Env := fun _ t =>
  match t with
  | .competitorFinder => .ok compOk
  | .fundingRetriever => .ok fundOk
  | .webSearchTool => .ok (.plist [.pstr "trend"])
  | .ragQueryTool => .ok (.plist [.pstr "hit"])
  | .noOp => .ok (.plist [])

/-- Scenario B: web search always returns an empty list. -/
def envWebEmpty : Env := fun _ t =>
  match t with
  | .webSearchTool => .ok (.plist [])
  | _ => envGood 0 t

/-- The fallback RAG query returns one hit. -/
def fbHit : FbEnv := fun _ => .ok (.plist [.pstr "hit"])

/-- The fallback RAG query always returns an empty list. -/
def fbEmpty : FbEnv := fun _ => .ok (.plist [])

/-- The competitor tool raises `Exception("boom")`; other tools succeed. -/
def envCompRaises : Env := fun _ t =>
  match t with
  | .competitorFinder => .error "boom"
  | _ => envGood 0 t

/-- Every tool call raises (Scenario C). -/
def envAllRaise : Env := fun _ _ => .error "boom"

def fbRaise : FbEnv := fun _ => .error "boom"

/-- The competitor tool succeeds on its first call and returns an empty
list on later calls. -/
def envAdv : Env := fun i t =>
  match t with
  | .competitorFinder => if i == 0 then .ok compOk else .ok (.plist [])
  | _ => envGood 0 t

end MI

namespace MI

/-! Characterisation of the action selected for each information gap. -/

theorem determineAction_comp_gap (pi : ParsedInput) (cd : CollectedData)
    (h : cd.competitors.truthy = false) :
    determineAction pi cd (generateThought pi cd) =
      .ok ("Search for competitors", .competitorFinder,
           [("domain", .s pi.domain), ("features", .strs pi.key_features)]) := by
  simp only [generateThought, h, Bool.not_false, if_true]
  simp only [determineAction, compThought_pat1, if_true]

theorem determineAction_funding_gap (pi : ParsedInput) (cd : CollectedData)
    (hc : cd.competitors.truthy = true) (hf : cd.funding_data.truthy = false) :
    determineAction pi cd (generateThought pi cd) =
      (companyNames cd.competitors).map (fun names =>
        ("Retrieve funding data", Tool.fundingRetriever,
         [("companies", ArgV.vals names)])) := by
  simp only [generateThought, hc, hf, Bool.not_true, Bool.not_false, Bool.true_and,
    if_false, if_true]
  simp only [determineAction, fundThought_pat1, fundThought_pat2, if_true,
    Bool.false_eq_true, if_false]

theorem determineAction_web_gap (pi : ParsedInput) (cd : CollectedData)
    (hc : cd.competitors.truthy = true) (hf : cd.funding_data.truthy = true)
    (hw : cd.web_search_results.truthy = false)
    (hW1 : hasSubstr (myLower ("I need to search for market trends in " ++ pi.domain))
             "find competitors" = false)
    (hW2 : hasSubstr (myLower ("I need to search for market trends in " ++ pi.domain))
             "funding data" = false) :
    determineAction pi cd (generateThought pi cd) =
      .ok ("Web search for market trends", .webSearchTool,
           [("query", .s (pi.domain ++ " market trends 2023")), ("num_results", .n 5)]) := by
  simp only [generateThought, hc, hf, hw, Bool.not_true, Bool.not_false, Bool.false_and,
    Bool.true_and, if_false, if_true, Bool.false_eq_true]
  simp only [determineAction, hW1, hW2, webThought_pat3, if_true, Bool.false_eq_true,
    if_false]

theorem determineAction_rag_gap (pi : ParsedInput) (cd : CollectedData)
    (hc : cd.competitors.truthy = true) (hf : cd.funding_data.truthy = true)
    (hw : cd.web_search_results.truthy = true) (hr : cd.rag_results.truthy = false) :
    determineAction pi cd (generateThought pi cd) =
      .ok ("RAG query for domain knowledge", .ragQueryTool,
           [("query", .s (pi.domain ++ " startup success factors"))]) := by
  simp only [generateThought, hc, hf, hw, hr, Bool.not_true, Bool.not_false,
    Bool.false_and, Bool.true_and, if_false, if_true, Bool.false_eq_true]
  simp only [determineAction, ragThought_pat1, ragThought_pat2, ragThought_pat3,
    ragThought_pat4, if_true, Bool.false_eq_true, if_false]

theorem determineAction_done (pi : ParsedInput) (cd : CollectedData)
    (hc : cd.competitors.truthy = true) (hf : cd.funding_data.truthy = true)
    (hw : cd.web_search_results.truthy = true) (hr : cd.rag_results.truthy = true) :
    determineAction pi cd (generateThought pi cd) =
      .ok ("No action needed", .noOp, []) := by
  simp only [generateThought, hc, hf, hw, hr, Bool.not_true, Bool.false_and,
    Bool.true_and, if_false, Bool.false_eq_true]
  simp only [determineAction, suffThought_pat1, suffThought_pat2, suffThought_pat3,
    suffThought_pat4, Bool.false_eq_true, if_false]

/-- The tools the loop may legitimately select: never the `NoOp` sentinel. -/
def GoodTool (t : Tool) : Prop :=
  t ≠ Tool.noOp ∧
    (t = Tool.competitorFinder ∨ t = Tool.fundingRetriever ∨
     t = Tool.webSearchTool ∨ t = Tool.ragQueryTool)

theorem determineAction_goodTool (pi : ParsedInput) (cd : CollectedData)
    (hstop : shouldStop cd = false) :
    ∀ {d : String} {t : Tool} {args : List (String × ArgV)},
      determineAction pi cd (generateThought pi cd) = .ok (d, t, args) → GoodTool t := by
  intro d t args hda
  by_cases hc : cd.competitors.truthy = true
  · by_cases hf : cd.funding_data.truthy = true
    · have hcl : (cd.competitors.pyLen != 0) = true := by
        rw [← PyVal.truthy_eq_pyLen_bne]; exact hc
      have hwr : (cd.web_search_results.pyLen != 0 || cd.rag_results.pyLen != 0) = false := by
        simp only [shouldStop, hcl, hf, Bool.true_and] at hstop
        exact hstop
      have hw : cd.web_search_results.truthy = false := by
        rw [PyVal.truthy_eq_pyLen_bne]
        exact (Bool.or_eq_false_iff.mp hwr).1
      simp only [generateThought, hc, hf, hw, Bool.not_true, Bool.not_false,
        Bool.false_and, Bool.true_and, if_false, if_true, Bool.false_eq_true] at hda
      simp only [determineAction] at hda
      by_cases h1 : hasSubstr (myLower ("I need to search for market trends in " ++ pi.domain))
          "find competitors" = true
      · simp only [h1, if_true] at hda
        cases hda
        exact ⟨by simp, Or.inl rfl⟩
      · simp only [eq_false_of_ne_true h1, Bool.false_eq_true, if_false] at hda
        by_cases h2 : hasSubstr (myLower ("I need to search for market trends in " ++ pi.domain))
            "funding data" = true
        · simp only [h2, if_true] at hda
          cases hcn : companyNames cd.competitors with
          | ok names =>
              rw [hcn] at hda
              simp only [Except.map] at hda
              cases hda
              exact ⟨by simp, Or.inr (Or.inl rfl)⟩
          | error e =>
              rw [hcn] at hda
              simp only [Except.map] at hda
              exact absurd hda (by simp)
        · simp only [eq_false_of_ne_true h2, Bool.false_eq_true, if_false,
            webThought_pat3, if_true] at hda
          cases hda
          exact ⟨by simp, Or.inr (Or.inr (Or.inl rfl))⟩
    · rw [determineAction_funding_gap pi cd hc (eq_false_of_ne_true hf)] at hda
      cases hcn : companyNames cd.competitors with
      | ok names =>
          rw [hcn] at hda
          simp only [Except.map] at hda
          cases hda
          exact ⟨by simp, Or.inr (Or.inl rfl)⟩
      | error e =>
          rw [hcn] at hda
          simp only [Except.map] at hda
          exact absurd hda (by simp)
  · rw [determineAction_comp_gap pi cd (eq_false_of_ne_true hc)] at hda
    cases hda
    exact ⟨by simp, Or.inl rfl⟩

end MI

namespace MI

theorem needsFallback_lt (cfg : Config) (a : Nat) (t : Tool) (obs : PyVal)
    (h : needsFallback cfg a t obs = true) : a < cfg.maxFallbackAttempts := by
  unfold needsFallback at h
  split at h
  · simp only [Bool.and_eq_true, decide_eq_true_eq] at h
    exact h.2
  · exact absurd h (by simp)

theorem step_actions_eq (cfg : Config) (pi : ParsedInput) (env : Env) (fbenv : FbEnv)
    (i : Nat) (st : LoopState) :
    (step cfg pi env fbenv i st).2.wm.actions = st.wm.actions ∨
    ∃ d t args,
      determineAction pi st.wm.collected (generateThought pi st.wm.collected) =
        .ok (d, t, args) ∧
      (step cfg pi env fbenv i st).2.wm.actions =
        st.wm.actions ++ [({ tool := t, args := args } : ActionRec)] := by
  unfold step
  cases hda : determineAction pi st.wm.collected (generateThought pi st.wm.collected) with
  | error e => simp [hda]
  | ok v =>
      obtain ⟨d, t, args⟩ := v
      right
      refine ⟨d, t, args, rfl, ?_⟩
      simp only [hda]
      split_ifs <;> simp

theorem step_some_counts (cfg : Config) (pi : ParsedInput) (env : Env) (fbenv : FbEnv)
    (i : Nat) (st : LoopState) (e : String)
    (h : (step cfg pi env fbenv i st).1 = some e) :
    (step cfg pi env fbenv i st).2.fbInvocations = st.fbInvocations ∧
    (step cfg pi env fbenv i st).2.wm.actions = st.wm.actions ∧
    (step cfg pi env fbenv i st).2.wm.observations = st.wm.observations ∧
    (step cfg pi env fbenv i st).2.wm.collected = st.wm.collected := by
  unfold step at h ⊢
  cases hda : determineAction pi st.wm.collected (generateThought pi st.wm.collected) with
  | error e2 => simp [hda]
  | ok v =>
      obtain ⟨d, t, args⟩ := v
      simp only [hda] at h
      split_ifs at h

theorem step_fbInv_le (cfg : Config) (pi : ParsedInput) (env : Env) (fbenv : FbEnv)
    (i : Nat) (st : LoopState) :
    (step cfg pi env fbenv i st).2.fbInvocations ≤ st.fbInvocations + 1 := by
  unfold step
  cases hda : determineAction pi st.wm.collected (generateThought pi st.wm.collected) with
  | error e => simp [hda]
  | ok v =>
      obtain ⟨d, t, args⟩ := v
      simp only [hda]
      split_ifs <;> simp

theorem step_inv_align (cfg : Config) (pi : ParsedInput) (env : Env) (fbenv : FbEnv)
    (i : Nat) (st : LoopState)
    (h : st.wm.observations.length = st.wm.actions.length + st.fbObsCount) :
    (step cfg pi env fbenv i st).2.wm.observations.length =
      (step cfg pi env fbenv i st).2.wm.actions.length +
        (step cfg pi env fbenv i st).2.fbObsCount := by
  unfold step
  cases hda : determineAction pi st.wm.collected (generateThought pi st.wm.collected) with
  | error e => simpa [hda] using h
  | ok v =>
      obtain ⟨d, t, args⟩ := v
      simp only [hda]
      split_ifs <;> simp [h] <;> omega

theorem step_inv_attempts (cfg : Config) (pi : ParsedInput) (env : Env) (fbenv : FbEnv)
    (i : Nat) (st : LoopState)
    (h1 : st.fbObsCount = st.wm.fallbackAttempts)
    (h2 : st.wm.fallbackAttempts ≤ cfg.maxFallbackAttempts) :
    (step cfg pi env fbenv i st).2.fbObsCount =
      (step cfg pi env fbenv i st).2.wm.fallbackAttempts ∧
    (step cfg pi env fbenv i st).2.wm.fallbackAttempts ≤ cfg.maxFallbackAttempts := by
  unfold step
  cases hda : determineAction pi st.wm.collected (generateThought pi st.wm.collected) with
  | error e => simp only [hda]; exact ⟨h1, h2⟩
  | ok v =>
      obtain ⟨d, t, args⟩ := v
      simp only [hda]
      split_ifs with hreg hfb hrag htr <;>
        first
        | exact ⟨h1, h2⟩
        | (have hfb2 : needsFallback cfg st.wm.fallbackAttempts t (executeTool env i t) = true :=
             ((Bool.and_eq_true _ _).mp hfb).2
           have hlt := needsFallback_lt cfg _ _ _ hfb2
           refine ⟨?_, ?_⟩
           · show st.fbObsCount + 1 = st.wm.fallbackAttempts + 1
             omega
           · show st.wm.fallbackAttempts + 1 ≤ cfg.maxFallbackAttempts
             omega)

end MI

namespace MI

theorem runAux_preserves (cfg : Config) (pi : ParsedInput) (env : Env) (fbenv : FbEnv)
    (P : LoopState → Prop)
    (hstep : ∀ i st, P st → P (step cfg pi env fbenv i st).2) :
    ∀ fuel i st, P st → P (runAux cfg pi env fbenv fuel i st).2.1 := by
  intro fuel
  induction fuel with
  | zero => intro i st h; simpa [runAux] using h
  | succ n ih =>
      intro i st h
      have h1 := hstep i st h
      cases hs : step cfg pi env fbenv i st with
      | mk e st1 =>
          rw [hs] at h1
          cases e with
          | some e0 => simpa [runAux, hs] using h1
          | none =>
              simp only [runAux, hs]
              by_cases hstop : shouldStop st1.wm.collected = true
              · simpa [hstop] using h1
              · simp only [eq_false_of_ne_true hstop, Bool.false_eq_true, if_false]
                cases hr : runAux cfg pi env fbenv n (i + 1) st1 with
                | mk e2 rest =>
                    cases rest with
                    | mk stf tr =>
                        have h2 := ih (i + 1) st1 h1
                        rw [hr] at h2
                        simpa using h2

theorem runAux_trace_le (cfg : Config) (pi : ParsedInput) (env : Env) (fbenv : FbEnv) :
    ∀ fuel i st, (runAux cfg pi env fbenv fuel i st).2.2.length ≤ fuel := by
  intro fuel
  induction fuel with
  | zero => intro i st; simp [runAux]
  | succ n ih =>
      intro i st
      cases hs : step cfg pi env fbenv i st with
      | mk e st1 =>
          cases e with
          | some e0 => simp [runAux, hs]
          | none =>
              simp only [runAux, hs]
              by_cases hstop : shouldStop st1.wm.collected = true
              · simp [hstop]
              · simp only [eq_false_of_ne_true hstop, Bool.false_eq_true, if_false]
                cases hr : runAux cfg pi env fbenv n (i + 1) st1 with
                | mk e2 rest =>
                    cases rest with
                    | mk stf tr =>
                        have h2 := ih (i + 1) st1
                        rw [hr] at h2
                        simpa using Nat.succ_le_succ h2

theorem runAux_fbInv_le (cfg : Config) (pi : ParsedInput) (env : Env) (fbenv : FbEnv) :
    ∀ fuel i st,
      (runAux cfg pi env fbenv fuel i st).2.1.fbInvocations ≤
        st.fbInvocations + (runAux cfg pi env fbenv fuel i st).2.2.length := by
  intro fuel
  induction fuel with
  | zero => intro i st; simp [runAux]
  | succ n ih =>
      intro i st
      cases hs : step cfg pi env fbenv i st with
      | mk e st1 =>
          cases e with
          | some e0 =>
              have hc := (step_some_counts cfg pi env fbenv i st e0 (by rw [hs])).1
              rw [hs] at hc
              have hc2 : st1.fbInvocations = st.fbInvocations := by simpa using hc
              simp only [runAux, hs]
              simp [hc2]
          | none =>
              have hle := step_fbInv_le cfg pi env fbenv i st
              rw [hs] at hle
              simp only [runAux, hs]
              by_cases hstop : shouldStop st1.wm.collected = true
              · simpa [hstop] using hle
              · simp only [eq_false_of_ne_true hstop, Bool.false_eq_true, if_false]
                cases hr : runAux cfg pi env fbenv n (i + 1) st1 with
                | mk e2 rest =>
                    cases rest with
                    | mk stf tr =>
                        have h2 := ih (i + 1) st1
                        rw [hr] at h2
                        have h2b : stf.fbInvocations ≤ st1.fbInvocations + tr.length := by
                          simpa using h2
                        have hleb : st1.fbInvocations ≤ st.fbInvocations + 1 := by
                          simpa using hle
                        show stf.fbInvocations ≤ st.fbInvocations + (tr.length + 1)
                        omega

theorem runAux_goodActions (cfg : Config) (pi : ParsedInput) (env : Env) (fbenv : FbEnv) :
    ∀ fuel i st, shouldStop st.wm.collected = false →
      (∀ a ∈ st.wm.actions, GoodTool a.tool) →
      ∀ a ∈ (runAux cfg pi env fbenv fuel i st).2.1.wm.actions, GoodTool a.tool := by
  intro fuel
  induction fuel with
  | zero => intro i st _ hA; simpa [runAux] using hA
  | succ n ih =>
      intro i st hstop hA
      have hstepA : ∀ a ∈ (step cfg pi env fbenv i st).2.wm.actions, GoodTool a.tool := by
        rcases step_actions_eq cfg pi env fbenv i st with he | ⟨d, t, args, hda, he⟩
        · rw [he]; exact hA
        · rw [he]
          intro a ha
          rcases List.mem_append.mp ha with h | h
          · exact hA a h
          · rw [List.mem_singleton.mp h]
            exact determineAction_goodTool pi st.wm.collected hstop hda
      cases hs : step cfg pi env fbenv i st with
      | mk e st1 =>
          rw [hs] at hstepA
          cases e with
          | some e0 => simpa [runAux, hs] using hstepA
          | none =>
              simp only [runAux, hs]
              by_cases hstop1 : shouldStop st1.wm.collected = true
              · simpa [hstop1] using hstepA
              · simp only [eq_false_of_ne_true hstop1, Bool.false_eq_true, if_false]
                cases hr : runAux cfg pi env fbenv n (i + 1) st1 with
                | mk e2 rest =>
                    cases rest with
                    | mk stf tr =>
                        have h2 := ih (i + 1) st1 (eq_false_of_ne_true hstop1) hstepA
                        rw [hr] at h2
                        simpa using h2

end MI

namespace MI

theorem runAux_stop_spec (cfg : Config) (pi : ParsedInput) (env : Env) (fbenv : FbEnv) :
    ∀ fuel i st,
      (∀ j c, j + 1 < (runAux cfg pi env fbenv fuel i st).2.2.length →
        (runAux cfg pi env fbenv fuel i st).2.2[j]? = some c → shouldStop c = false) ∧
      ((runAux cfg pi env fbenv fuel i st).1 = none → 0 < fuel →
        (runAux cfg pi env fbenv fuel i st).2.2 ≠ []) ∧
      ((runAux cfg pi env fbenv fuel i st).1 = none →
        (runAux cfg pi env fbenv fuel i st).2.2.length < fuel →
        ∀ c, (runAux cfg pi env fbenv fuel i st).2.2.getLast? = some c →
          shouldStop c = true) := by
  intro fuel
  induction fuel with
  | zero =>
      intro i st
      refine ⟨?_, ?_, ?_⟩ <;> simp [runAux]
  | succ n ih =>
      intro i st
      cases hs : step cfg pi env fbenv i st with
      | mk e st1 =>
          cases e with
          | some e0 =>
              refine ⟨?_, ?_, ?_⟩ <;> simp [runAux, hs]
          | none =>
              by_cases hstop : shouldStop st1.wm.collected = true
              · refine ⟨?_, ?_, ?_⟩ <;> simp only [runAux, hs, hstop, if_true]
                · intro j c hj hc
                  simp at hj
                · intro _ _
                  simp
                · intro _ _ c hc
                  simp only [List.getLast?_singleton, Option.some.injEq] at hc
                  rw [← hc]
                  exact hstop
              · have hstop1 : shouldStop st1.wm.collected = false := eq_false_of_ne_true hstop
                cases hr : runAux cfg pi env fbenv n (i + 1) st1 with
                | mk e2 rest =>
                    cases rest with
                    | mk stf tr =>
                        have ihs := ih (i + 1) st1
                        rw [hr] at ihs
                        obtain ⟨ih1, ih2, ih3⟩ := ihs
                        refine ⟨?_, ?_, ?_⟩ <;>
                          simp only [runAux, hs, hstop1, Bool.false_eq_true, if_false, hr]
                        · intro j c hj hc
                          cases j with
                          | zero =>
                              simp only [List.getElem?_cons_zero, Option.some.injEq] at hc
                              rw [← hc]
                              exact hstop1
                          | succ j2 =>
                              simp only [List.getElem?_cons_succ] at hc
                              simp only [List.length_cons] at hj
                              exact ih1 j2 c
                                (show j2 + 1 < tr.length by omega) hc
                        · intro _ _
                          simp
                        · intro he hlen c hc
                          cases tr with
                          | nil =>
                              have h0n : 0 < n := by
                                simp only [List.length_cons, List.length_nil] at hlen
                                omega
                              exact absurd rfl (ih2 (by simpa using he) h0n)
                          | cons t ts =>
                              rw [List.getLast?_cons_cons] at hc
                              refine ih3 (by simpa using he)
                                (show (t :: ts).length < n by
                                  simp only [List.length_cons] at hlen ⊢
                                  omega) c hc

end MI

namespace MI

/-- Category-wise progress: every category that is non-empty (truthy) in `a`
is still non-empty in `b`. -/
def MonoRel (a b : CollectedData) : Prop :=
  (a.competitors.truthy = true → b.competitors.truthy = true) ∧
  (a.funding_data.truthy = true → b.funding_data.truthy = true) ∧
  (a.web_search_results.truthy = true → b.web_search_results.truthy = true) ∧
  (a.rag_results.truthy = true → b.rag_results.truthy = true)

theorem MonoRel.rfl (a : CollectedData) : MonoRel a a :=
  ⟨id, id, id, id⟩

theorem MonoRel.trans {a b c : CollectedData} (h1 : MonoRel a b) (h2 : MonoRel b c) :
    MonoRel a c :=
  ⟨fun h => h2.1 (h1.1 h), fun h => h2.2.1 (h1.2.1 h),
   fun h => h2.2.2.1 (h1.2.2.1 h), fun h => h2.2.2.2 (h1.2.2.2 h)⟩

theorem mono_update_comp (cd : CollectedData) (obs : PyVal)
    (h : cd.competitors.truthy = false) :
    MonoRel cd (updateCollected Tool.competitorFinder obs cd) := by
  refine ⟨fun hx => ?_, id, id, id⟩
  rw [h] at hx
  exact absurd hx (by simp)

theorem mono_update_fund (cd : CollectedData) (obs : PyVal)
    (h : cd.funding_data.truthy = false) :
    MonoRel cd (updateCollected Tool.fundingRetriever obs cd) := by
  refine ⟨id, fun hx => ?_, id, id⟩
  rw [h] at hx
  exact absurd hx (by simp)

theorem mono_update_web (cd : CollectedData) (obs : PyVal)
    (h : cd.web_search_results.truthy = false) :
    MonoRel cd (updateCollected Tool.webSearchTool obs cd) := by
  refine ⟨id, id, fun hx => ?_, id⟩
  rw [h] at hx
  exact absurd hx (by simp)

theorem mono_update_rag (cd : CollectedData) (obs : PyVal)
    (h : cd.rag_results.truthy = false) :
    MonoRel cd (updateCollected Tool.ragQueryTool obs cd) := by
  refine ⟨id, id, id, fun hx => ?_⟩
  rw [h] at hx
  exact absurd hx (by simp)

theorem mono_update_web_twice (cd : CollectedData) (o1 o2 : PyVal)
    (h : o2.truthy = true) :
    MonoRel cd (updateCollected Tool.webSearchTool o2
      (updateCollected Tool.webSearchTool o1 cd)) := by
  exact ⟨id, id, fun _ => h, id⟩

theorem needsFallback_tool (cfg : Config) (a : Nat) (t : Tool) (obs : PyVal)
    (h : needsFallback cfg a t obs = true) : t = Tool.webSearchTool := by
  cases t <;> try rfl
  all_goals cases obs <;> simp [needsFallback] at h

/-- What `step` does to `collected_data`: either nothing (a crash, an
unregistered tool), or one `last-write` update for the selected tool,
possibly followed by the fallback write to the web category. -/
theorem step_collected_eq (cfg : Config) (pi : ParsedInput) (env : Env) (fbenv : FbEnv)
    (i : Nat) (st : LoopState) :
    (step cfg pi env fbenv i st).2.wm.collected = st.wm.collected ∨
    ∃ d t args,
      determineAction pi st.wm.collected (generateThought pi st.wm.collected) =
        .ok (d, t, args) ∧
      ((step cfg pi env fbenv i st).2.wm.collected = st.wm.collected ∨
        (step cfg pi env fbenv i st).2.wm.collected =
          updateCollected t (executeTool env i t) st.wm.collected ∨
        ((step cfg pi env fbenv i st).2.wm.collected =
            updateCollected Tool.webSearchTool (fbWrap (executeFallback cfg fbenv i))
              (updateCollected t (executeTool env i t) st.wm.collected) ∧
          (executeFallback cfg fbenv i).truthy = true ∧ t = Tool.webSearchTool)) := by
  unfold step
  cases hda : determineAction pi st.wm.collected (generateThought pi st.wm.collected) with
  | error e => simp [hda]
  | ok v =>
      obtain ⟨d, t, args⟩ := v
      right
      refine ⟨d, t, args, rfl, ?_⟩
      simp only [hda]
      split_ifs with hreg hfb htr <;>
        first
        | (left; rfl)
        | (right; left; rfl)
        | (right; right
           exact ⟨rfl, htr,
             needsFallback_tool cfg _ _ _ ((Bool.and_eq_true _ _).mp hfb).2⟩)

theorem step_mono (cfg : Config) (pi : ParsedInput) (env : Env) (fbenv : FbEnv)
    (i : Nat) (st : LoopState)
    (hW1 : hasSubstr (myLower ("I need to search for market trends in " ++ pi.domain))
             "find competitors" = false)
    (hW2 : hasSubstr (myLower ("I need to search for market trends in " ++ pi.domain))
             "funding data" = false) :
    MonoRel st.wm.collected (step cfg pi env fbenv i st).2.wm.collected := by
  rcases step_collected_eq cfg pi env fbenv i st with heq | ⟨d, t, args, hda, hrest⟩
  · rw [heq]; exact MonoRel.rfl _
  · by_cases hc : st.wm.collected.competitors.truthy = true
    · by_cases hf : st.wm.collected.funding_data.truthy = true
      · by_cases hw : st.wm.collected.web_search_results.truthy = true
        · by_cases hr2 : st.wm.collected.rag_results.truthy = true
          · -- all four collected: the selected action is NoOp
            have h2 := (determineAction_done pi st.wm.collected hc hf hw hr2).symm.trans hda
            simp only [Except.ok.injEq, Prod.mk.injEq] at h2
            obtain ⟨-, ht, -⟩ := h2
            rcases hrest with h | h | ⟨h, htr, hweb⟩
            · rw [h]; exact MonoRel.rfl _
            · rw [h, ← ht]; exact MonoRel.rfl _
            · rw [← ht] at hweb; exact absurd hweb (by simp)
          · -- RAG gap
            have h2 := (determineAction_rag_gap pi st.wm.collected hc hf hw
              (eq_false_of_ne_true hr2)).symm.trans hda
            simp only [Except.ok.injEq, Prod.mk.injEq] at h2
            obtain ⟨-, ht, -⟩ := h2
            rcases hrest with h | h | ⟨h, htr, hweb⟩
            · rw [h]; exact MonoRel.rfl _
            · rw [h, ← ht]
              exact mono_update_rag _ _ (eq_false_of_ne_true hr2)
            · rw [← ht] at hweb; exact absurd hweb (by simp)
        · -- web gap (the clean-domain hypotheses pin the action to web search)
          have h2 := (determineAction_web_gap pi st.wm.collected hc hf
            (eq_false_of_ne_true hw) hW1 hW2).symm.trans hda
          simp only [Except.ok.injEq, Prod.mk.injEq] at h2
          obtain ⟨-, ht, -⟩ := h2
          rcases hrest with h | h | ⟨h, htr, hweb⟩
          · rw [h]; exact MonoRel.rfl _
          · rw [h, ← ht]
            exact mono_update_web _ _ (eq_false_of_ne_true hw)
          · rw [h, ← ht]
            exact mono_update_web_twice _ _ _ (PyVal.truthy_fbWrap _ htr)
      · -- funding gap
        have h2 := (determineAction_funding_gap pi st.wm.collected hc
          (eq_false_of_ne_true hf)).symm.trans hda
        cases hcn : companyNames st.wm.collected.competitors with
        | error e =>
            rw [hcn] at h2
            exact absurd h2 (by simp [Except.map])
        | ok names =>
            rw [hcn] at h2
            simp only [Except.map, Except.ok.injEq, Prod.mk.injEq] at h2
            obtain ⟨-, ht, -⟩ := h2
            rcases hrest with h | h | ⟨h, htr, hweb⟩
            · rw [h]; exact MonoRel.rfl _
            · rw [h, ← ht]
              exact mono_update_fund _ _ (eq_false_of_ne_true hf)
            · rw [← ht] at hweb; exact absurd hweb (by simp)
    · -- competitor gap
      have h2 := (determineAction_comp_gap pi st.wm.collected
        (eq_false_of_ne_true hc)).symm.trans hda
      simp only [Except.ok.injEq, Prod.mk.injEq] at h2
      obtain ⟨-, ht, -⟩ := h2
      rcases hrest with h | h | ⟨h, htr, hweb⟩
      · rw [h]; exact MonoRel.rfl _
      · rw [h, ← ht]
        exact mono_update_comp _ _ (eq_false_of_ne_true hc)
      · rw [← ht] at hweb; exact absurd hweb (by simp)

theorem runAux_chain (cfg : Config) (pi : ParsedInput) (env : Env) (fbenv : FbEnv)
    (hW1 : hasSubstr (myLower ("I need to search for market trends in " ++ pi.domain))
             "find competitors" = false)
    (hW2 : hasSubstr (myLower ("I need to search for market trends in " ++ pi.domain))
             "funding data" = false) :
    ∀ fuel i st,
      List.Chain' MonoRel (st.wm.collected :: (runAux cfg pi env fbenv fuel i st).2.2) := by
  intro fuel
  induction fuel with
  | zero => intro i st; simp [runAux]
  | succ n ih =>
      intro i st
      have hm := step_mono cfg pi env fbenv i st hW1 hW2
      cases hs : step cfg pi env fbenv i st with
      | mk e st1 =>
          rw [hs] at hm
          cases e with
          | some e0 => simp [runAux, hs]
          | none =>
              simp only [runAux, hs]
              by_cases hstop : shouldStop st1.wm.collected = true
              · simp only [hstop, if_true]
                exact List.chain'_cons.mpr ⟨hm, List.chain'_singleton _⟩
              · simp only [eq_false_of_ne_true hstop, Bool.false_eq_true, if_false]
                cases hr : runAux cfg pi env fbenv n (i + 1) st1 with
                | mk e2 rest =>
                    cases rest with
                    | mk stf tr =>
                        have h2 := ih (i + 1) st1
                        rw [hr] at h2
                        simp only at h2 ⊢
                        exact List.chain'_cons.mpr ⟨hm, h2⟩

theorem chain_mono_head :
    ∀ (xs : List CollectedData) (x : CollectedData),
      List.Chain' MonoRel (x :: xs) →
      ∀ (k : Nat) (b : CollectedData), (x :: xs)[k]? = some b → MonoRel x b := by
  intro xs
  induction xs with
  | nil =>
      intro x _ k b hb
      cases k with
      | zero =>
          simp only [List.getElem?_cons_zero, Option.some.injEq] at hb
          rw [← hb]; exact MonoRel.rfl x
      | succ k2 => simp at hb
  | cons y ys ih =>
      intro x hch k b hb
      cases k with
      | zero =>
          simp only [List.getElem?_cons_zero, Option.some.injEq] at hb
          rw [← hb]; exact MonoRel.rfl x
      | succ k2 =>
          have hxy : MonoRel x y := (List.chain'_cons.mp hch).1
          have ht := (List.chain'_cons.mp hch).2
          simp only [List.getElem?_cons_succ] at hb
          exact hxy.trans (ih y ht k2 b hb)

theorem chain_mono_propagate :
    ∀ (l : List CollectedData), List.Chain' MonoRel l →
      ∀ (j k : Nat) (a b : CollectedData),
        j ≤ k → l[j]? = some a → l[k]? = some b → MonoRel a b := by
  intro l
  induction l with
  | nil => intro _ j k a b _ ha; simp at ha
  | cons x xs ih =>
      intro hch j k a b hjk ha hb
      cases j with
      | zero =>
          simp only [List.getElem?_cons_zero, Option.some.injEq] at ha
          rw [← ha]
          exact chain_mono_head xs x hch k b hb
      | succ j2 =>
          cases k with
          | zero => omega
          | succ k2 =>
              simp only [List.getElem?_cons_succ] at ha hb
              exact ih hch.tail j2 k2 a b (by omega) ha hb

/-- The `collected_data` state at the start of the run followed by its value
at the end of each completed iteration. -/
def mstates (cfg : Config) (pi : ParsedInput) (env : Env) (fbenv : FbEnv) :
    List CollectedData :=
  initCollected :: runTrace cfg pi env fbenv

end MI

namespace MI

/-- The standard configuration with `max_fallback_attempts = 1`. -/
def cfgK1 : Config := { cfgStd with maxFallbackAttempts := 1 }

/-- C1 (amended): for every run of `ReasoningLoop.run` that does not abort
with an uncaught exception, the loop breaks at the end of an iteration iff
`_should_stop` holds on the collected data at that point (competitors
non-empty AND funding non-empty AND (web results non-empty OR RAG results
non-empty)), and otherwise continues until `max_iterations` iterations have
run: every non-final iteration snapshot fails the predicate, and if fewer
than `max_iterations` iterations ran, the final snapshot satisfies it. -/
theorem claim1_amended (cfg : Config) (pi : ParsedInput) (env : Env) (fbenv : FbEnv)
    (hN : 0 < cfg.maxIterations) (he : runErr cfg pi env fbenv = none) :
    runTrace cfg pi env fbenv ≠ [] ∧
    (runTrace cfg pi env fbenv).length ≤ cfg.maxIterations ∧
    (∀ (j : Nat) (c : CollectedData), j + 1 < (runTrace cfg pi env fbenv).length →
      (runTrace cfg pi env fbenv)[j]? = some c → shouldStop c = false) ∧
    ((runTrace cfg pi env fbenv).length < cfg.maxIterations →
      ∀ c, (runTrace cfg pi env fbenv).getLast? = some c → shouldStop c = true) := by
  obtain ⟨h1, h2, h3⟩ :=
    runAux_stop_spec cfg pi env fbenv cfg.maxIterations 0 initState
  exact ⟨h2 he hN, runAux_trace_le cfg pi env fbenv cfg.maxIterations 0 initState,
    h1, fun hlen c hc => h3 he hlen c hc⟩

/-- C1 witness: a run in which every tool succeeds stops after 3 iterations
with the predicate satisfied. -/
theorem claim1_amended_witness :
    (0 < cfgStd.maxIterations ∧ runErr cfgStd piFin envGood fbHit = none) ∧
    (runTrace cfgStd piFin envGood fbHit ≠ [] ∧
     (runTrace cfgStd piFin envGood fbHit).length ≤ cfgStd.maxIterations ∧
     (∀ (j : Nat) (c : CollectedData),
        j + 1 < (runTrace cfgStd piFin envGood fbHit).length →
        (runTrace cfgStd piFin envGood fbHit)[j]? = some c → shouldStop c = false) ∧
     ((runTrace cfgStd piFin envGood fbHit).length < cfgStd.maxIterations →
       ∀ c, (runTrace cfgStd piFin envGood fbHit).getLast? = some c →
         shouldStop c = true)) :=
  ⟨⟨by decide, rfl⟩, claim1_amended cfgStd piFin envGood fbHit (by decide) rfl⟩

/-- C1 counterexample to the claim as stated: when `CompetitorFinder`
raises, the run aborts after a single completed iteration whose snapshot
does not satisfy the stopping predicate, even though the budget of 10
iterations is not exhausted — the loop stops for a third reason (an
uncaught `TypeError`). -/
theorem claim1_counterexample :
    runErr cfgStd piFin envCompRaises fbHit ≠ none ∧
    (runTrace cfgStd piFin envCompRaises fbHit).length = 1 ∧
    1 < cfgStd.maxIterations ∧
    (runTrace cfgStd piFin envCompRaises fbHit).all (fun c => !shouldStop c) = true := by
  refine ⟨?_, rfl, by decide, ?_⟩ <;> decide

/-- C2 (amended): the loop always terminates within `max_iterations` main
iterations, and performs at most one fallback tool invocation per completed
iteration — so fallback invocations are bounded by the iteration count, not
by `max_fallback_attempts`. -/
theorem claim2_amended (cfg : Config) (pi : ParsedInput) (env : Env) (fbenv : FbEnv) :
    (runTrace cfg pi env fbenv).length ≤ cfg.maxIterations ∧
    (runState cfg pi env fbenv).fbInvocations ≤ (runTrace cfg pi env fbenv).length := by
  constructor
  · exact runAux_trace_le cfg pi env fbenv cfg.maxIterations 0 initState
  · have := runAux_fbInv_le cfg pi env fbenv cfg.maxIterations 0 initState
    simpa [initState] using this

/-- C2 counterexample to the claim as stated: with
`max_fallback_attempts = 1`, a web search that is always empty and a
fallback RAG query that is always empty, the run performs 8 fallback tool
invocations — more than the claimed bound of `max_fallback_attempts`
additional invocations (an empty fallback result never increments the
fallback counter). -/
theorem claim2_counterexample :
    (runState cfgK1 piFin envWebEmpty fbEmpty).fbInvocations = 8 ∧
    cfgK1.maxFallbackAttempts = 1 ∧
    (runTrace cfgK1 piFin envWebEmpty fbEmpty).length = 10 := by
  refine ⟨rfl, rfl, rfl⟩

/-- C3 (code bug): injecting a failure into `CompetitorFinder` makes `run`
raise instead of returning normally: the error string recorded by
`_execute_tool` is stored as the competitors category, and the next
next call to `_determine_action` iterates over that string to build the
funding arguments, raising an uncaught `TypeError` that crosses the loop
boundary after one completed iteration. -/
theorem claim3_codebug :
    runErr cfgStd piFin envCompRaises fbHit =
      some "TypeError: string indices must be integers" ∧
    (runTrace cfgStd piFin envCompRaises fbHit).length = 1 := by
  exact ⟨rfl, rfl⟩

/-- C4 (amended): provided the `domain` text does not make the lowercased
web-trends thought contain an earlier action pattern ("find competitors" or
"funding data"), collected-data categories are monotone: in the sequence of
per-iteration snapshots, once a category is non-empty it stays non-empty. -/
theorem claim4_amended (cfg : Config) (pi : ParsedInput) (env : Env) (fbenv : FbEnv)
    (hW1 : hasSubstr (myLower ("I need to search for market trends in " ++ pi.domain))
             "find competitors" = false)
    (hW2 : hasSubstr (myLower ("I need to search for market trends in " ++ pi.domain))
             "funding data" = false) :
    ∀ (j k : Nat) (a b : CollectedData), j ≤ k →
      (mstates cfg pi env fbenv)[j]? = some a →
      (mstates cfg pi env fbenv)[k]? = some b → MonoRel a b := by
  intro j k a b hjk ha hb
  have hch := runAux_chain cfg pi env fbenv hW1 hW2 cfg.maxIterations 0 initState
  exact chain_mono_propagate _ hch j k a b hjk ha hb

/-- C4 witness: in the all-tools-succeed run with domain "FinTech", the
competitors category is non-empty from snapshot 1 on, and monotonicity
carries it to snapshot 3. -/
theorem claim4_amended_witness :
    (hasSubstr (myLower ("I need to search for market trends in " ++ piFin.domain))
       "find competitors" = false ∧
     hasSubstr (myLower ("I need to search for market trends in " ++ piFin.domain))
       "funding data" = false ∧
     (mstates cfgStd piFin envGood fbHit)[1]? =
       some ((mstates cfgStd piFin envGood fbHit).getD 1 initCollected) ∧
     (mstates cfgStd piFin envGood fbHit)[3]? =
       some ((mstates cfgStd piFin envGood fbHit).getD 3 initCollected)) ∧
    MonoRel ((mstates cfgStd piFin envGood fbHit).getD 1 initCollected)
      ((mstates cfgStd piFin envGood fbHit).getD 3 initCollected) :=
  ⟨⟨by decide, by decide, rfl, rfl⟩,
   claim4_amended cfgStd piFin envGood fbHit (by decide) (by decide) 1 3 _ _
     (by omega) rfl rfl⟩

/-- C4 counterexample to the claim as stated: with
`domain = "find competitors"`, the web-trends thought of iteration 2
matches the competitor pattern, so `CompetitorFinder` is re-invoked and its
empty result overwrites the previously non-empty competitors category:
snapshot 2 has a non-empty competitors bucket, snapshot 3 an empty one. -/
theorem claim4_counterexample :
    ((mstates cfgStd piAdv envAdv fbHit).getD 2 initCollected).competitors.truthy = true ∧
    ((mstates cfgStd piAdv envAdv fbHit).getD 3 initCollected).competitors.truthy = false ∧
    2 < (mstates cfgStd piAdv envAdv fbHit).length := by
  refine ⟨rfl, rfl, by decide⟩

/-- C5 (amended): the recorded fallback observations equal the
`fallback_attempts` counter, which never exceeds `max_fallback_attempts`
(so at most k fallback observations appear in working memory) — but the
number of fallback tool invocations is not bounded by k, only by the
iteration count (see the counterexample). -/
theorem claim5_amended (cfg : Config) (pi : ParsedInput) (env : Env) (fbenv : FbEnv) :
    (runState cfg pi env fbenv).fbObsCount =
      (runState cfg pi env fbenv).wm.fallbackAttempts ∧
    (runState cfg pi env fbenv).wm.fallbackAttempts ≤ cfg.maxFallbackAttempts := by
  have := runAux_preserves cfg pi env fbenv
    (fun st => st.fbObsCount = st.wm.fallbackAttempts ∧
      st.wm.fallbackAttempts ≤ cfg.maxFallbackAttempts)
    (fun i st h => step_inv_attempts cfg pi env fbenv i st h.1 h.2)
    cfg.maxIterations 0 initState ⟨rfl, Nat.zero_le _⟩
  exact this

/-- C5 counterexample to the claim as stated: with
`max_fallback_attempts = 2` and an always-empty web search whose fallback
RAG query is also always empty, 8 fallback tool invocations occur in one
run — the claimed bound of at most k = 2 fallback invocations is false. -/
theorem claim5_counterexample :
    (runState cfgStd piFin envWebEmpty fbEmpty).fbInvocations = 8 ∧
    cfgStd.maxFallbackAttempts = 2 := by
  exact ⟨rfl, rfl⟩

/-- C6 (amended): the observations list always has exactly one entry per
recorded action plus one entry per recorded fallback observation (fallback
observations are appended without a corresponding action entry), so the two
sequences have equal length exactly when no fallback observation was
recorded. -/
theorem claim6_amended (cfg : Config) (pi : ParsedInput) (env : Env) (fbenv : FbEnv) :
    (runState cfg pi env fbenv).wm.observations.length =
      (runState cfg pi env fbenv).wm.actions.length +
        (runState cfg pi env fbenv).fbObsCount := by
  exact runAux_preserves cfg pi env fbenv
    (fun st => st.wm.observations.length = st.wm.actions.length + st.fbObsCount)
    (fun i st h => step_inv_align cfg pi env fbenv i st h)
    cfg.maxIterations 0 initState rfl

/-- C6 counterexample to the claim as stated: in the scenario-B run the
fallback observation is recorded without an action, leaving 4 observations
against 3 actions — the sequences are not index-aligned. -/
theorem claim6_counterexample :
    (runState cfgStd piFin envWebEmpty fbHit).wm.observations.length = 4 ∧
    (runState cfgStd piFin envWebEmpty fbHit).wm.actions.length = 3 := by
  exact ⟨rfl, rfl⟩

/-- C7 (amended): in scenario B (web search always empty, fallback RAG
query returns one hit, `max_fallback_attempts = 2`, competitor and funding
tools succeed), after competitors and funding are collected the web-results
gap triggers exactly one fallback invocation, which succeeds, and the loop
terminates after 3 iterations — but the retrieval hit is stored in the
web-results category (`_update_collected_data("WebSearchTool", ...)`),
leaving the retrieval-results category empty, not the other way around. -/
theorem claim7_amended :
    runErr cfgStd piFin envWebEmpty fbHit = none ∧
    (runTrace cfgStd piFin envWebEmpty fbHit).length = 3 ∧
    (runState cfgStd piFin envWebEmpty fbHit).fbInvocations = 1 ∧
    (runState cfgStd piFin envWebEmpty fbHit).wm.fallbackAttempts = 1 ∧
    ((runState cfgStd piFin envWebEmpty fbHit).wm.collected.web_search_results).pyLen = 1 ∧
    ((runState cfgStd piFin envWebEmpty fbHit).wm.collected.rag_results).pyLen = 0 := by
  exact ⟨rfl, rfl, rfl, rfl, rfl, rfl⟩

/-- C7 counterexample to the claim as stated: the scenario-B run ends with
the retrieval-results category empty and the web-results category
populated, contradicting the claimed final state. -/
theorem claim7_counterexample :
    ((runState cfgStd piFin envWebEmpty fbHit).wm.collected.rag_results).truthy = false ∧
    ((runState cfgStd piFin envWebEmpty fbHit).wm.collected.web_search_results).pyLen ≠ 0 := by
  exact ⟨rfl, by decide⟩

/-- C8 (code bug): when every tool call raises, the loop does not run to
the full budget with empty categories and N error observations: the first
error string is stored as competitors data (making that category truthy),
and iteration 2 crashes with an uncaught `TypeError` while building funding
arguments — after a single completed iteration and a single recorded
observation. -/
theorem claim8_codebug :
    runErr cfgStd piFin envAllRaise fbRaise =
      some "TypeError: string indices must be integers" ∧
    (runTrace cfgStd piFin envAllRaise fbRaise).length = 1 ∧
    (runState cfgStd piFin envAllRaise fbRaise).wm.observations.length = 1 ∧
    ((runState cfgStd piFin envAllRaise fbRaise).wm.collected.competitors).truthy = true := by
  exact ⟨rfl, rfl, rfl, rfl⟩

/-- C10 (confirmed): starting from the all-empty collected data, every
action the rule-based loop records names one of the four real tools, and
the `NoOp` sentinel branch is never selected: any state in which action
selection would yield `NoOp` already satisfies the stopping predicate and
is unreachable at the top of an iteration. -/
theorem claim10_confirmed (cfg : Config) (pi : ParsedInput) (env : Env) (fbenv : FbEnv) :
    ((runState cfg pi env fbenv).wm.actions.all
      (fun a => a.tool != Tool.noOp &&
        (a.tool == Tool.competitorFinder || a.tool == Tool.fundingRetriever ||
         a.tool == Tool.webSearchTool || a.tool == Tool.ragQueryTool))) = true := by
  rw [List.all_eq_true]
  intro a ha
  have hg : GoodTool a.tool := by
    refine runAux_goodActions cfg pi env fbenv cfg.maxIterations 0 initState ?_ ?_ a ha
    · rfl
    · intro x hx
      simp [initState] at hx
  obtain ⟨h1, h2⟩ := hg
  rcases h2 with h | h | h | h <;> rw [h] <;> rfl

end MI

namespace RA

/-! Embedding of `Market_survey/main.py`: `_extract_action_and_input` and
`react_generate_report` (the LLM-driven ReAct loop). -/

/-- Python `\s` for the ASCII range: space, tab, newline, carriage return,
vertical tab, form feed. -/
def wsChar (c : Char) : Bool :=
  c == ' ' || c == '\t' || c == '\n' || c == '\r' || c == '\x0b' || c == '\x0c'

/-- Python `str.strip()`. -/
def trimWs (l : List Char) : List Char :=
  ((l.dropWhile wsChar).reverse.dropWhile wsChar).reverse

/-- The captured group of `\s*(.+)` applied to the remainder `r` after the
colon, already `.strip()`-ed; `none` when the pattern cannot match.  With
`re.DOTALL` the group takes everything (so the match needs `r` non-empty);
without it `.+` stops at a newline, and the greedy `\s*` backtracks just
far enough to give `.+` one non-newline character. -/
def matchAfter (dotall : Bool) (r : List Char) : Option String :=
  if dotall then
    if r.isEmpty then none else some ⟨trimWs r⟩
  else
    if r.any (fun c => c != '\n') then
      some ⟨trimWs (((r.dropWhile wsChar).takeWhile (fun c => c != '\n')))⟩
    else none

/-- Try to match `lit` `\s*` `:` `\s*(.+)` at the head of `s`. -/
def tryAt (lit : List Char) (dotall : Bool) (s : List Char) : Option String :=
  if subAt lit s then
    match (s.drop lit.length).dropWhile wsChar with
    | ':' :: r => matchAfter dotall r
    | _ => none
  else none

/-- Embeds `re.search` for the pattern `lit` `\s*:\s*(.+)`: scan left to right for
the first position where the whole pattern matches, returning the stripped
capture. -/
def findCapture (lit : List Char) (dotall : Bool) : List Char → Option String
  | [] => none
  | c :: rest =>
      match tryAt lit dotall (c :: rest) with
      | some g => some g
      | none => findCapture lit dotall rest

/-- Embeds `re.search(r"Final Answer\s*:\s*(.+)", text, re.DOTALL)`, returning the
stripped capture. -/
def findFinalStr (text : String) : Option String :=
  findCapture "Final Answer".data true text.data

/-- Embeds `_extract_action_and_input`: the final-answer marker is located first;
otherwise an `Action`/`Action Input` pair is searched for. -/
def extractActionAndInput (text : String) : String × String :=
  match findFinalStr text with
  | some g => ("", g)
  | none =>
      match findCapture "Action".data false text.data,
            findCapture "Action Input".data true text.data with
      | some a, some b => (a, b)
      | _, _ => ("", "")

/-- The result of one `llm.invoke` call: a text response, or a raised
exception carrying its message. -/
inductive LMRes : Type where
  | txt (s : String)
  | fail (msg : String)

/-- The outcome of `react_generate_report`: a returned answer string, or an
exception propagating to the caller. -/
inductive RARes : Type where
  | ans (s : String)
  | raised (e : String)
deriving DecidableEq

/-- The mutable loop state: the accumulating scratchpad transcript, the
number of tool executions, and the number of `llm.invoke` calls made. -/
structure RAState : Type where
  scratchpad : String
  toolCalls : Nat
  llmCalls : Nat

/-- The names in `_tool_registry()` (`allowed` whitelist). -/
def allowedNames : List String :=
  ["startup_search", "competitor_finder", "funding_retriever", "news_search"]

/-- The canned message returned when the iteration budget is exhausted. -/
def cannedLimitMsg : String :=
  "Final Answer: Iteration limit reached before the agent produced a final report. Please retry or provide a slightly more specific input, and ensure rate limits are not active."

/-- One `llm.invoke` with the rate-limit retry policy: a text to process, a
continue-without-text (non-rate-limit error recorded in the scratchpad), or
an exception from the unprotected retry call. -/
def raResolve (llm : Nat → LMRes) (st : RAState) :
    (RARes × RAState) ⊕ (Option String × RAState) :=
  match llm st.llmCalls with
  | .txt t => .inr (some t, { st with llmCalls := st.llmCalls + 1 })
  | .fail m =>
      if hasSubstr m "Rate limit" || hasSubstr m "429" then
        match llm (st.llmCalls + 1) with
        | .txt t => .inr (some t, { st with llmCalls := st.llmCalls + 2 })
        | .fail m2 => .inl (.raised m2, { st with llmCalls := st.llmCalls + 2 })
      else
        .inr (none,
          { st with
              scratchpad := st.scratchpad ++ "\nObservation: LLM error: " ++ m ++ "\n"
              llmCalls := st.llmCalls + 1 })

/-- The `for _ in range(12)` loop of `react_generate_report`.  `tenv` gives
the result (or raised exception, caught into an error-JSON string) of the
`k`-th tool execution; `normArg` stands for `_normalize_action_input`,
whose output only flows into the tool argument and never into control
flow.  The scratchpad rendering of the allowed-names list elides the Python
quoting. -/
def raRunAux (llm : Nat → LMRes) (tenv : Nat → Except String String)
    (normArg : String → String) : Nat → RAState → RARes × RAState
  | 0, st => (.ans cannedLimitMsg, st)
  | fuel + 1, st =>
    match raResolve llm st with
    | .inl res => res
    | .inr (none, st1) => raRunAux llm tenv normArg fuel st1
    | .inr (some t, st1) =>
        let ab := extractActionAndInput t
        if ab.1 == "" && ab.2 != "" then (.ans ab.2, st1)
        else if ab.1 == "" then
          raRunAux llm tenv normArg fuel
            { st1 with scratchpad := st1.scratchpad ++ "\n" ++ t ++ "\n" }
        else if !(allowedNames.contains ab.1) then
          raRunAux llm tenv normArg fuel
            { st1 with
                scratchpad := st1.scratchpad ++ "\nObservation: Disallowed tool " ++ ab.1 ++
                  ". Allowed: [competitor_finder, funding_retriever, news_search, startup_search]\n" }
        else
          let output :=
            match tenv st1.toolCalls with
            | .ok s => s
            | .error e => "\x7b\"error\": \"Tool execution failed: " ++ e ++ "\"\x7d"
          raRunAux llm tenv normArg fuel
            { st1 with
                scratchpad := st1.scratchpad ++ "\nObservation: " ++ output ++ "\n"
                toolCalls := st1.toolCalls + 1 }

/-- Embeds `react_generate_report`: 12 iterations starting from an empty
scratchpad. -/
def raRun (llm : Nat → LMRes) (tenv : Nat → Except String String)
    (normArg : String → String) : RARes × RAState :=
  raRunAux llm tenv normArg 12 { scratchpad := "", toolCalls := 0, llmCalls := 0 }

/-- A model that always answers with a blank-payload final-answer marker. -/
def llmBlank : Nat → LMRes := fun _ => .txt "Final Answer:\n"

/-- A model that immediately emits a final answer (after announcing an
action, which the parser must ignore). -/
def llmFinal : Nat → LMRes := fun _ =>
  .txt "Action: competitor_finder\nAction Input: X\nFinal Answer: DONE"

def tenv0 : Nat → Except String String := fun _ => .ok "ok"

/-- C9 (amended): for every model behaviour whose first response contains a
final-answer marker with a non-blank payload (even alongside action and
action-input markers), the loop returns that payload immediately: one model
call, zero tool invocations. -/
theorem claim9_amended (llm : Nat → LMRes) (tenv : Nat → Except String String)
    (normArg : String → String) (t a : String)
    (h0 : llm 0 = .txt t) (hf : findFinalStr t = some a) (ha : a ≠ "") :
    (raRun llm tenv normArg).1 = .ans a ∧
    (raRun llm tenv normArg).2.toolCalls = 0 ∧
    (raRun llm tenv normArg).2.llmCalls = 1 := by
  have hab : extractActionAndInput t = ("", a) := by
    simp [extractActionAndInput, hf]
  have hane : (a != "") = true := bne_iff_ne.mpr ha
  refine ⟨?_, ?_, ?_⟩ <;>
    simp [raRun, raRunAux, raResolve, h0, hab, hane]

/-- C9 witness: a first response carrying action markers and a final-answer
marker returns the final answer at once with no tool calls. -/
theorem claim9_amended_witness :
    (llmFinal 0 = LMRes.txt "Action: competitor_finder\nAction Input: X\nFinal Answer: DONE" ∧
     findFinalStr "Action: competitor_finder\nAction Input: X\nFinal Answer: DONE" = some "DONE" ∧
     "DONE" ≠ "") ∧
    ((raRun llmFinal tenv0 (fun s => s)).1 = .ans "DONE" ∧
     (raRun llmFinal tenv0 (fun s => s)).2.toolCalls = 0 ∧
     (raRun llmFinal tenv0 (fun s => s)).2.llmCalls = 1) :=
  ⟨⟨rfl, rfl, by decide⟩,
   claim9_amended llmFinal tenv0 (fun s => s) _ "DONE" rfl rfl (by decide)⟩

/-- C9 counterexample to the claim as stated: the text "Final Answer:\n"
contains a final-answer marker (the parser locates it, with a blank
payload), yet the loop does not terminate with it: fed that text on every
call, the loop runs all 12 iterations and returns the canned
iteration-limit message. -/
theorem claim9_counterexample :
    findFinalStr "Final Answer:\n" = some "" ∧
    (raRun llmBlank tenv0 (fun s => s)).1 = .ans cannedLimitMsg ∧
    (raRun llmBlank tenv0 (fun s => s)).2.llmCalls = 12 ∧
    (raRun llmBlank tenv0 (fun s => s)).2.toolCalls = 0 := by
  exact ⟨rfl, rfl, rfl, rfl⟩

end RA
